import Mathlib

/-!
Verification of the toda runtime injection machinery against its
natural-language specification.  The definitions below are shallow
embeddings of the corresponding Rust functions; the theorems settle the
frozen claims about them.
-/

namespace Toda

/-! ## OS path model

Rust OsStr values need not be valid UTF-8; an OsStr is either valid text
or an invalid byte sequence.  A path component is a normal name or the
parent-directory component; an absolute path is its component list from
the filesystem root.
-/

/-- An operating-system string: valid UTF-8 text or an invalid byte
sequence for which to_str returns None. -/
inductive OsStr where
  | utf8 (s : String)
  | invalid (bytes : List Nat)
deriving DecidableEq

/-- OsStr::to_str succeeds exactly on valid UTF-8. -/
def OsStr.to_str : OsStr → Option String
  | OsStr.utf8 s => some s
  | OsStr.invalid _ => none

/-- One component of a path: a normal name or the parent-directory
component. -/
inductive Comp where
  | name (o : OsStr)
  | parentDir
deriving DecidableEq

/-- An absolute path, as its list of components below the root. -/
structure APath where
  comps : List Comp
deriving DecidableEq

/-- Path::file_name: the last component when it is a normal name. -/
def APath.file_name (p : APath) : Option OsStr :=
  match p.comps.getLast? with
  | some (Comp.name o) => some o
  | _ => none

/-- encode_path from src/utils.rs: pop the last component (failing on the
root), read the basename as UTF-8 (failing on a trailing parent component
or invalid bytes), and build the sibling whose basename is the original
basename wrapped in the chaosfs markers.  Returns the pair
(original_path, new_path) exactly as the source does. -/
def encode_path (p : APath) : Except String (APath × APath) :=
  if p.comps.isEmpty then
    Except.error "path is the root"
  else
    match p.comps.getLast? with
    | some (Comp.name o) =>
      match o.to_str with
      | some s =>
        Except.ok (p,
          ⟨p.comps.dropLast ++ [Comp.name (OsStr.utf8 ("__chaosfs__" ++ s ++ "__"))]⟩)
      | none => Except.error "path with non-UTF-8 character"
    | _ => Except.error "the path terminates in .. or /"

theorem encode_path_ok_shape (p : APath) (r : APath × APath)
    (h : encode_path p = Except.ok r) :
    ∃ s, p.comps.getLast? = some (Comp.name (OsStr.utf8 s)) ∧
      r = (p, ⟨p.comps.dropLast ++
        [Comp.name (OsStr.utf8 ("__chaosfs__" ++ s ++ "__"))]⟩) := by
  unfold encode_path at h
  split at h
  · exact absurd h (by simp)
  · split at h
    · rename_i o hlast
      cases o with
      | utf8 s =>
        refine ⟨s, hlast, ?_⟩
        simp only [OsStr.to_str] at h
        exact (Except.ok.injEq _ _).mp h |>.symm
      | invalid b =>
        simp only [OsStr.to_str] at h
        exact absurd h (by simp)
    · exact absurd h (by simp)

theorem chaosfs_wrap_inj (s t : String)
    (h : ("__chaosfs__" ++ s ++ "__" : String) = "__chaosfs__" ++ t ++ "__") :
    s = t := by
  have hd := congrArg String.data h
  simp only [String.data_append, List.append_assoc] at hd
  have h1 := List.append_cancel_left hd
  have h2 := List.append_cancel_right h1
  cases s
  cases t
  exact congrArg String.mk h2

theorem dropLast_append_getLastEq {α : Type} :
    ∀ (l : List α) (x : α), l.getLast? = some x → l.dropLast ++ [x] = l
  | [], _, h => by simp at h
  | [a], x, h => by
    simp only [List.getLast?_singleton, Option.some.injEq] at h
    simp [h]
  | a :: b :: t, x, h => by
    have ih := dropLast_append_getLastEq (b :: t) x (by simpa using h)
    simpa using ih

/-- C6.  On an absolute non-root path with a normal UTF-8 basename,
encode_path returns the sibling path whose basename is the original
basename wrapped in the chaosfs markers; the new path determines the
original path (injectivity); and encode_path fails exactly on the root,
on a path ending in a parent component, and on a non-UTF-8 basename. -/
theorem encode_path_spec :
    (∀ (cs : List Comp) (s : String), s ≠ "" →
      encode_path ⟨cs ++ [Comp.name (OsStr.utf8 s)]⟩ =
        Except.ok (⟨cs ++ [Comp.name (OsStr.utf8 s)]⟩,
          ⟨cs ++ [Comp.name (OsStr.utf8 ("__chaosfs__" ++ s ++ "__"))]⟩)) ∧
    (∀ (p q : APath) (rp rq : APath × APath),
      encode_path p = Except.ok rp → encode_path q = Except.ok rq →
      rp.2 = rq.2 → p = q) ∧
    (∀ p : APath, (∃ e, encode_path p = Except.error e) ↔
      (p.comps = [] ∨ p.comps.getLast? = some Comp.parentDir ∨
        ∃ b, p.comps.getLast? = some (Comp.name (OsStr.invalid b)))) := by
  refine ⟨?_, ?_, ?_⟩
  · intro cs s _hs
    simp [encode_path, OsStr.to_str, List.getLast?_concat, List.dropLast_concat]
  · intro p q rp rq hp hq h2
    obtain ⟨sp, hlp, hrp⟩ := encode_path_ok_shape p rp hp
    obtain ⟨sq, hlq, hrq⟩ := encode_path_ok_shape q rq hq
    subst hrp
    subst hrq
    simp only at h2
    have hcomps := congrArg APath.comps h2
    simp only at hcomps
    have hinj := List.append_inj' hcomps (by simp)
    have hname : sp = sq := by
      have := hinj.2
      simp only [List.cons.injEq, Comp.name.injEq, OsStr.utf8.injEq] at this
      exact chaosfs_wrap_inj sp sq this.1
    have hpfull := dropLast_append_getLastEq p.comps _ hlp
    have hqfull := dropLast_append_getLastEq q.comps _ hlq
    cases p with
    | mk pcs =>
      cases q with
      | mk qcs =>
        simp only at hpfull hqfull hinj
        have : pcs = qcs := by
          rw [← hpfull, ← hqfull, hinj.1, hname]
        simp [this]
  · intro p
    constructor
    · rintro ⟨e, he⟩
      by_cases hnil : p.comps = []
      · exact Or.inl hnil
      · have hsome : ∃ c, p.comps.getLast? = some c := by
          cases hx : p.comps.getLast? with
          | none => exact absurd (List.getLast?_eq_none_iff.mp hx) hnil
          | some c => exact ⟨c, rfl⟩
        obtain ⟨c, hc⟩ := hsome
        cases c with
        | name o =>
          cases o with
          | utf8 s =>
            exfalso
            have : encode_path p = Except.ok (p,
                ⟨p.comps.dropLast ++
                  [Comp.name (OsStr.utf8 ("__chaosfs__" ++ s ++ "__"))]⟩) := by
              simp [encode_path, hc, OsStr.to_str, hnil, List.isEmpty_iff]
            rw [this] at he
            exact absurd he (by simp)
          | invalid b => exact Or.inr (Or.inr ⟨b, hc⟩)
        | parentDir => exact Or.inr (Or.inl hc)
    · intro h
      rcases h with hnil | hpd | ⟨b, hb⟩
      · exact ⟨"path is the root", by simp [encode_path, hnil]⟩
      · refine ⟨"the path terminates in .. or /", ?_⟩
        have hnil : ¬ p.comps = [] := by
          intro hx
          rw [hx] at hpd
          exact absurd hpd (by simp)
        simp [encode_path, hpd, hnil, List.isEmpty_iff]
      · refine ⟨"path with non-UTF-8 character", ?_⟩
        have hnil : ¬ p.comps = [] := by
          intro hx
          rw [hx] at hb
          exact absurd hb (by simp)
        simp [encode_path, hb, hnil, List.isEmpty_iff, OsStr.to_str]

/-- Witness for C6 at a concrete path. -/
theorem encode_path_spec_witness :
    encode_path ⟨[Comp.name (OsStr.utf8 "data")] ++ [Comp.name (OsStr.utf8 "x")]⟩ =
      Except.ok (⟨[Comp.name (OsStr.utf8 "data")] ++ [Comp.name (OsStr.utf8 "x")]⟩,
        ⟨[Comp.name (OsStr.utf8 "data")] ++
          [Comp.name (OsStr.utf8 ("__chaosfs__" ++ "x" ++ "__"))]⟩) :=
  encode_path_spec.1 [Comp.name (OsStr.utf8 "data")] "x" (by decide)

/-! ## Mount swap

Mount points and process paths are modelled as component lists; Rust
Path::starts_with is component-wise prefix ordering.
-/

/-- A path as its list of name components (all further claims operate on
already-decoded UTF-8 paths). -/
abbrev MPath := List String

/-- Path::starts_with: the base is a component-wise prefix of the path. -/
def pathStartsWith (p base : MPath) : Bool :=
  base.isPrefixOf p

/-- MountsInfo::non_root from src/mount.rs: the path lies below (or at)
some listed mount point. -/
def non_root (mounts : List MPath) (path : MPath) : Bool :=
  mounts.any (fun mount_point => pathStartsWith path mount_point)

/-- The possible relocation actions of a mount swap. -/
inductive MountMove where
  | moveMount (src dst : MPath)
  | renameMove (src dst : MPath)
deriving DecidableEq

/-- The mount-swap step of MountInjector::mount from src/mount_injector.rs:
when non_root holds it issues mount-move from the original path to the new
path, and otherwise it fails with an error. -/
def mountSwap (mounts : List MPath) (original_path new_path : MPath) :
    Except String MountMove :=
  if non_root mounts original_path then
    Except.ok (MountMove.moveMount original_path new_path)
  else
    Except.error "inject on a root mount"

/-- C2 counterexample.  With no mount point above the detect path the swap
does not fall back to rename: it fails with an error. -/
theorem mountSwap_no_rename_counterexample :
    mountSwap [["proc"]] ["data", "x"] ["data", "__chaosfs__x__"] =
      Except.error "inject on a root mount" ∧
    (¬ ∃ m, mountSwap [["proc"]] ["data", "x"] ["data", "__chaosfs__x__"] =
      Except.ok m) := by
  constructor
  · rfl
  · rintro ⟨m, hm⟩
    rw [show mountSwap [["proc"]] ["data", "x"] ["data", "__chaosfs__x__"] =
      Except.error "inject on a root mount" from rfl] at hm
    exact absurd hm (by simp)

/-- C2 amended.  When the detect path lies below a listed mount point the
swap is a mount-move from the detect path to the shadow path; otherwise
the swap fails with the root-mount error (there is no rename fallback). -/
theorem mountSwap_spec (mounts : List MPath) (dp sp : MPath) :
    ((∃ mp ∈ mounts, mp.isPrefixOf dp = true) →
      mountSwap mounts dp sp = Except.ok (MountMove.moveMount dp sp)) ∧
    ((∀ mp ∈ mounts, ¬ mp.isPrefixOf dp = true) →
      mountSwap mounts dp sp = Except.error "inject on a root mount") := by
  constructor
  · rintro ⟨mp, hmem, hpre⟩
    have : non_root mounts dp = true := by
      simp only [non_root, List.any_eq_true]
      exact ⟨mp, hmem, hpre⟩
    simp [mountSwap, this]
  · intro h
    have : non_root mounts dp = false := by
      simp only [non_root, List.any_eq_false]
      intro mp hmem
      exact h mp hmem
    simp [mountSwap, this]

/-- Witness for C2 at concrete mount tables. -/
theorem mountSwap_spec_witness :
    mountSwap [["data"]] ["data", "x"] ["data", "__chaosfs__x__"] =
      Except.ok (MountMove.moveMount ["data", "x"] ["data", "__chaosfs__x__"]) ∧
    mountSwap [] ["data", "x"] ["data", "__chaosfs__x__"] =
      Except.error "inject on a root mount" := by
  constructor
  · exact (mountSwap_spec [["data"]] ["data", "x"] ["data", "__chaosfs__x__"]).1
      ⟨["data"], by decide, by decide⟩
  · exact (mountSwap_spec [] ["data", "x"] ["data", "__chaosfs__x__"]).2
      (by intro mp hmem; exact absurd hmem (by simp))

/-! ## Inode table

Node and InodeMap from src/hookfs/mod.rs.  The map from inode numbers to
nodes is modelled as a function into Option Node.
-/

/-- A node of the inode table: a lookup reference count and the list of
paths known for the inode. -/
structure Node where
  ref_count : Nat
  paths : List MPath
deriving DecidableEq

instance : Inhabited Node := ⟨⟨0, []⟩⟩

/-- Node::insert: scan the existing paths and return unchanged when the
path is already present, otherwise push it at the back. -/
def Node.insert (n : Node) (path : MPath) : Node :=
  if path ∈ n.paths then n else { n with paths := n.paths ++ [path] }

/-- Node::remove: drain every stored path equal to the argument. -/
def Node.remove (n : Node) (path : MPath) : Node :=
  { n with paths := n.paths.filter (fun x => x != path) }

/-- The inode table: inode numbers to nodes. -/
def InodeMap := Nat → Option Node

/-- InodeMap::increase_ref: bump the count when the entry exists. -/
def InodeMap.increase_ref (m : InodeMap) (inode : Nat) : InodeMap :=
  fun i =>
    if i = inode then
      (m inode).map (fun n => { n with ref_count := n.ref_count + 1 })
    else m i

/-- InodeMap::decrease_ref: when the entry exists and its count is at most
nlookup, drop the entry; in every other case the map is left unchanged
(in particular the count is never decremented). -/
def InodeMap.decrease_ref (m : InodeMap) (inode nlookup : Nat) : InodeMap :=
  match m inode with
  | some node =>
    if node.ref_count ≤ nlookup then fun i => if i = inode then none else m i
    else m
  | none => m

/-- InodeMap::insert_path: insert the path into the entry, creating a
default node first when the inode is absent. -/
def InodeMap.insert_path (m : InodeMap) (inode : Nat) (path : MPath) : InodeMap :=
  fun i =>
    if i = inode then some (((m inode).getD default).insert path)
    else m i

/-- InodeMap::remove_path: remove the path from the entry when the inode
is present; on a missing inode only an error is logged. -/
def InodeMap.remove_path (m : InodeMap) (inode : Nat) (path : MPath) : InodeMap :=
  fun i =>
    if i = inode then (m inode).map (fun n => n.remove path)
    else m i

/-- The empty inode table. -/
def InodeMap.empty : InodeMap := fun _ => none

/-- HookFs::new seeds the table with inode 1 mapped to the original path. -/
def InodeMap.initial (original_path : MPath) : InodeMap :=
  InodeMap.empty.insert_path 1 original_path

/-- The table update of a successful lookup (and of mknod, mkdir, create,
symlink and link): insert the resolved path, then bump the count. -/
def InodeMap.lookupInsert (m : InodeMap) (inode : Nat) (path : MPath) : InodeMap :=
  (m.insert_path inode path).increase_ref inode

/-- Repeated successful lookups of the same inode and path. -/
def iterLookup (inode : Nat) (path : MPath) : Nat → InodeMap → InodeMap
  | 0, m => m
  | Nat.succ k, m => iterLookup inode path k (m.lookupInsert inode path)

/-- Two lookups of inode 5 at the same path on a freshly initialised
table: the resulting reference count is 2. -/
def c1Map : InodeMap :=
  ((InodeMap.initial ["data"]).lookupInsert 5 ["data", "x"]).lookupInsert 5
    ["data", "x"]

/-- C1 counterexample.  With ref_count 2, forget with nlookup 1 leaves the
count at 2 instead of decrementing it to 1, and a second such forget still
does not remove the entry although the two forgotten lookups add up to the
whole count. -/
theorem decrease_ref_counterexample :
    c1Map 5 = some ⟨2, [["data", "x"]]⟩ ∧
    (c1Map.decrease_ref 5 1) 5 = some ⟨2, [["data", "x"]]⟩ ∧
    ¬ ((c1Map.decrease_ref 5 1) 5 = some ⟨1, [["data", "x"]]⟩) ∧
    ¬ (((c1Map.decrease_ref 5 1).decrease_ref 5 1) 5 = none) := by
  refine ⟨by decide, by decide, by decide, by decide⟩

theorem lookupInsert_at_existing (m : InodeMap) (ino : Nat) (p : MPath)
    (c : Nat) (ps : List MPath) (h : m ino = some ⟨c, ps⟩) (hp : p ∈ ps) :
    (m.lookupInsert ino p) ino = some ⟨c + 1, ps⟩ := by
  simp [InodeMap.lookupInsert, InodeMap.increase_ref, InodeMap.insert_path, h,
    Node.insert, hp]

theorem iterLookup_stable (ino : Nat) (p : MPath) :
    ∀ (k : Nat) (m : InodeMap) (c : Nat) (ps : List MPath),
      m ino = some ⟨c, ps⟩ → p ∈ ps →
      (iterLookup ino p k m) ino = some ⟨c + k, ps⟩
  | 0, m, c, ps, h, _ => by simpa [iterLookup] using h
  | Nat.succ k, m, c, ps, h, hp => by
    have hstep := lookupInsert_at_existing m ino p c ps h hp
    have ih := iterLookup_stable ino p k (m.lookupInsert ino p) (c + 1) ps hstep hp
    have harith : c + 1 + k = c + (k + 1) := by omega
    simp only [iterLookup]
    rw [ih, harith]

theorem iterLookup_fresh (ino : Nat) (p : MPath) (k : Nat) (m : InodeMap)
    (h : m ino = none) (hk : 0 < k) :
    (iterLookup ino p k m) ino = some ⟨k, [p]⟩ := by
  cases k with
  | zero => exact absurd hk (by simp)
  | succ k =>
    have hstep : (m.lookupInsert ino p) ino = some ⟨1, [p]⟩ := by
      have hdef : (default : Node) = ⟨0, []⟩ := rfl
      simp [InodeMap.lookupInsert, InodeMap.increase_ref, InodeMap.insert_path,
        h, Node.insert, hdef]
    have ih := iterLookup_stable ino p k (m.lookupInsert ino p) 1 [p] hstep
      (by simp)
    have harith : 1 + k = k + 1 := by omega
    simp only [iterLookup]
    rw [ih, harith]

/-- C1 amended.  forget(ino, n) drops the entry when its reference count
is at most n and in every other case leaves the whole table unchanged: in
particular it never decrements the count.  Consequently, after k
successful lookups of a fresh inode the count equals k, the number of
increments, not the number of lookups minus the forgotten count. -/
theorem decrease_ref_spec (m : InodeMap) (ino n : Nat) :
    (∀ node, m ino = some node → node.ref_count ≤ n →
      m.decrease_ref ino n = fun i => if i = ino then none else m i) ∧
    (∀ node, m ino = some node → n < node.ref_count →
      m.decrease_ref ino n = m) ∧
    (m ino = none → m.decrease_ref ino n = m) ∧
    (∀ (k : Nat) (p : MPath) (m0 : InodeMap), m0 ino = none → 0 < k →
      ((iterLookup ino p k m0) ino).map Node.ref_count = some k) := by
  refine ⟨?_, ?_, ?_, ?_⟩
  · intro node h hle
    simp [InodeMap.decrease_ref, h, hle]
  · intro node h hlt
    simp [InodeMap.decrease_ref, h, Nat.not_le.mpr hlt]
  · intro h
    simp [InodeMap.decrease_ref, h]
  · intro k p m0 h0 hk
    rw [iterLookup_fresh ino p k m0 h0 hk]
    rfl

/-- Witness for C1 at the concrete two-lookup table. -/
theorem decrease_ref_spec_witness :
    (c1Map.decrease_ref 5 2) 5 = none ∧ c1Map.decrease_ref 5 1 = c1Map := by
  have h5 : c1Map 5 = some ⟨2, [["data", "x"]]⟩ := by decide
  constructor
  · have h := (decrease_ref_spec c1Map 5 2).1 ⟨2, [["data", "x"]]⟩ h5 (by decide)
    rw [h]
    simp
  · exact (decrease_ref_spec c1Map 5 1).2.1 ⟨2, [["data", "x"]]⟩ h5 (by decide)

/-- The mutating operations of the inode table. -/
inductive TableOp where
  | insertPathOp (ino : Nat) (p : MPath)
  | removePathOp (ino : Nat) (p : MPath)
  | increaseRefOp (ino : Nat)
  | decreaseRefOp (ino : Nat) (n : Nat)
deriving DecidableEq

/-- Apply one table operation. -/
def applyOp (m : InodeMap) : TableOp → InodeMap
  | TableOp.insertPathOp ino p => m.insert_path ino p
  | TableOp.removePathOp ino p => m.remove_path ino p
  | TableOp.increaseRefOp ino => m.increase_ref ino
  | TableOp.decreaseRefOp ino n => m.decrease_ref ino n

/-- Apply a sequence of table operations. -/
def applyOps (m : InodeMap) (ops : List TableOp) : InodeMap :=
  ops.foldl applyOp m

/-- Every node of the table has a duplicate-free path list. -/
def NodupMap (m : InodeMap) : Prop :=
  ∀ ino node, m ino = some node → node.paths.Nodup

theorem insert_keeps_nodup (n : Node) (p : MPath) (h : n.paths.Nodup) :
    (n.insert p).paths.Nodup := by
  unfold Node.insert
  split
  · exact h
  · rename_i hp
    simp only
    rw [List.nodup_append]
    refine ⟨h, by simp, ?_⟩
    intro a ha hmem
    simp only [List.mem_singleton] at hmem
    exact hp (hmem ▸ ha)

theorem decrease_ref_pointwise (m : InodeMap) (ino n i : Nat) :
    (m.decrease_ref ino n) i = m i ∨ (m.decrease_ref ino n) i = none := by
  simp only [InodeMap.decrease_ref]
  cases hm : m ino with
  | none => simp
  | some node0 =>
    by_cases hle : node0.ref_count ≤ n
    · simp only [hle, if_true]
      by_cases hio : i = ino
      · simp [hio]
      · simp [hio]
    · simp [hle]

theorem applyOp_keeps_nodup (m : InodeMap) (op : TableOp) (h : NodupMap m) :
    NodupMap (applyOp m op) := by
  cases op with
  | insertPathOp ino p =>
    intro i node hi
    simp only [applyOp, InodeMap.insert_path] at hi
    split at hi
    · have hnode := Option.some.inj hi
      rw [← hnode]
      refine insert_keeps_nodup _ p ?_
      cases hm : m ino with
      | none => simp [hm, show (default : Node) = ⟨0, []⟩ from rfl]
      | some nd => simpa [hm] using h ino nd hm
    · exact h i node hi
  | removePathOp ino p =>
    intro i node hi
    simp only [applyOp, InodeMap.remove_path] at hi
    split at hi
    · rw [Option.map_eq_some'] at hi
      obtain ⟨nd, hnd, hEq⟩ := hi
      rw [← hEq]
      exact List.Nodup.filter _ (h ino nd hnd)
    · exact h i node hi
  | increaseRefOp ino =>
    intro i node hi
    simp only [applyOp, InodeMap.increase_ref] at hi
    split at hi
    · rw [Option.map_eq_some'] at hi
      obtain ⟨nd, hnd, hEq⟩ := hi
      rw [← hEq]
      exact h ino nd hnd
    · exact h i node hi
  | decreaseRefOp ino n =>
    intro i node hi
    simp only [applyOp] at hi
    rcases decrease_ref_pointwise m ino n i with hcase | hcase
    · rw [hcase] at hi
      exact h i node hi
    · rw [hcase] at hi
      exact absurd hi (by simp)

theorem applyOps_keeps_nodup (ops : List TableOp) :
    ∀ m : InodeMap, NodupMap m → NodupMap (applyOps m ops) := by
  induction ops with
  | nil => intro m h; exact h
  | cons op rest ih =>
    intro m h
    exact ih (applyOp m op) (applyOp_keeps_nodup m op h)

theorem initial_nodup (orig : MPath) : NodupMap (InodeMap.initial orig) := by
  intro i node hi
  simp only [InodeMap.initial, InodeMap.insert_path, InodeMap.empty] at hi
  split at hi
  · have hnode := Option.some.inj hi
    rw [← hnode]
    simp [Node.insert, show (default : Node) = ⟨0, []⟩ from rfl]
  · exact absurd hi (by simp)

/-- C10.  Node::insert leaves a node unchanged when the path is already
present; hence along any sequence of table operations starting from the
freshly initialised table every node path list stays duplicate-free; and
Node::remove deletes every occurrence of its path. -/
theorem inode_paths_nodup_spec :
    (∀ (n : Node) (p : MPath), p ∈ n.paths → n.insert p = n) ∧
    (∀ (orig : MPath) (ops : List TableOp) (ino : Nat) (node : Node),
      applyOps (InodeMap.initial orig) ops ino = some node →
        node.paths.Nodup) ∧
    (∀ (n : Node) (p : MPath), ¬ p ∈ (n.remove p).paths) := by
  refine ⟨?_, ?_, ?_⟩
  · intro n p hp
    simp [Node.insert, hp]
  · intro orig ops ino node h
    exact applyOps_keeps_nodup ops (InodeMap.initial orig) (initial_nodup orig)
      ino node h
  · intro n p hmem
    simp only [Node.remove, List.mem_filter] at hmem
    have hfalse := hmem.2
    simp at hfalse

/-- Witness for C10 at a concrete node and a concrete operation list. -/
theorem inode_paths_nodup_spec_witness :
    Node.insert ⟨0, [["a"]]⟩ ["a"] = ⟨0, [["a"]]⟩ ∧
    (Node.paths ⟨0, [["data", "x"]]⟩).Nodup := by
  constructor
  · exact inode_paths_nodup_spec.1 ⟨0, [["a"]]⟩ ["a"] (by decide)
  · exact inode_paths_nodup_spec.2.1 ["data"]
      [TableOp.insertPathOp 5 ["data", "x"]] 5 ⟨0, [["data", "x"]]⟩ (by decide)

/-! ## Replacers

CwdReplacer from src/replacer/cwd_replacer.rs and the shared run loop of
CwdReplacer::run and FdReplacer::run.  Reads of /proc and the ptrace
attach outcome are modelled as fields of the process entry.
-/

/-- str::contains: the pattern occurs somewhere in the haystack. -/
def containsSub (hay pat : List Char) : Bool :=
  hay.tails.any (fun t => pat.isPrefixOf t)

/-- A process as seen by the replacer: its pid, the comm field of
/proc/pid/stat when readable, the resolved /proc/pid/cwd link when
readable, and whether the ptrace attach succeeds. -/
structure ProcEntry where
  pid : Nat
  stat_comm : Option String
  cwd : Option MPath
  traceOk : Bool
deriving DecidableEq

/-- The prepared cwd replacer: the traced pids and the stored new path. -/
structure CwdReplacer where
  processes : List Nat
  new_path : MPath
deriving DecidableEq

/-- CwdReplacer::prepare: drop toda itself (processes whose readable comm
contains toda), drop processes without a readable cwd, keep those whose
cwd starts with the detect path, and keep only those that ptrace attaches
to (attach failures are logged and skipped); store the new path. -/
def CwdReplacer.prepare (procs : List ProcEntry) (detect_path new_path : MPath) :
    CwdReplacer :=
  { processes :=
      (((procs.filter (fun p =>
          match p.stat_comm with
          | some c => !(containsSub c.data "toda".data)
          | none => true)).filterMap (fun p =>
          match p.cwd with
          | some c => some (p, c)
          | none => none)).filter (fun pc =>
          pathStartsWith pc.2 detect_path)).filterMap (fun pc =>
          if pc.1.traceOk then some pc.1.pid else none),
    new_path := new_path }

/-- CwdReplacer::run issues chdir(new_path) for every prepared process:
the chdir argument is the stored new path itself, for every process. -/
def chdirCalls (r : CwdReplacer) : List (Nat × MPath) :=
  r.processes.map (fun pid => (pid, r.new_path))

/-- C4 counterexample.  A process whose cwd is strictly below the detect
path with remainder sub is chdir-ed to the bare new path, not to the new
path joined with sub. -/
theorem chdir_args_counterexample :
    chdirCalls (CwdReplacer.prepare
        [⟨1, some "bash", some ["data", "x", "sub"], true⟩]
        ["data", "x"] ["data", "__chaosfs__x__"]) =
      [(1, ["data", "__chaosfs__x__"])] ∧
    chdirCalls (CwdReplacer.prepare
        [⟨1, some "bash", some ["data", "x", "sub"], true⟩]
        ["data", "x"] ["data", "__chaosfs__x__"]) ≠
      [(1, ["data", "__chaosfs__x__", "sub"])] := by
  refine ⟨by decide, by decide⟩

/-- C4 amended.  Every chdir issued by the replacer takes the bare new
path as its argument (the stripped remainder of the cwd is not joined),
and a chdir is issued for every non-toda process with a readable cwd
below the detect path whose attach succeeded. -/
theorem chdir_args_spec (procs : List ProcEntry) (detect_path new_path : MPath) :
    (∀ c ∈ chdirCalls (CwdReplacer.prepare procs detect_path new_path),
      c.2 = new_path) ∧
    (∀ p ∈ procs, ∀ cwd, p.cwd = some cwd →
      (∀ comm, p.stat_comm = some comm → containsSub comm.data "toda".data = false) →
      pathStartsWith cwd detect_path = true → p.traceOk = true →
      (p.pid, new_path) ∈ chdirCalls (CwdReplacer.prepare procs detect_path new_path)) := by
  constructor
  · intro c hc
    simp only [chdirCalls, List.mem_map] at hc
    obtain ⟨pid, _, hEq⟩ := hc
    rw [← hEq]
    rfl
  · intro p hp cwd hcwd hcomm hmatch htrace
    have hmem : p.pid ∈ (CwdReplacer.prepare procs detect_path new_path).processes := by
      simp only [CwdReplacer.prepare, List.mem_filterMap, List.mem_filter]
      refine ⟨(p, cwd), ⟨⟨⟨p, ⟨⟨hp, ?_⟩, ?_⟩⟩, hmatch⟩, ?_⟩⟩
      · cases hsc : p.stat_comm with
        | none => simp
        | some comm => simp [hcomm comm hsc]
      · simp [hcwd]
      · simp [htrace]
    exact List.mem_map.mpr ⟨p.pid, hmem, rfl⟩

/-- Witness for C4 at a concrete process table. -/
theorem chdir_args_spec_witness :
    (1, ["data", "__chaosfs__x__"]) ∈ chdirCalls (CwdReplacer.prepare
      [⟨1, some "bash", some ["data", "x", "sub"], true⟩]
      ["data", "x"] ["data", "__chaosfs__x__"]) := by
  refine (chdir_args_spec [⟨1, some "bash", some ["data", "x", "sub"], true⟩]
      ["data", "x"] ["data", "__chaosfs__x__"]).2
    ⟨1, some "bash", some ["data", "x", "sub"], true⟩ (by decide)
    ["data", "x", "sub"] rfl ?_ (by decide) rfl
  intro comm hcomm
  obtain rfl := (by simpa using hcomm : "bash" = comm)
  decide

/-- The run loop shared by CwdReplacer::run and FdReplacer::run from
src/replacer: iterate the per-object rewrite outcomes in order and
return early on the first error.  The first component counts how many
rewrites were attempted. -/
def runAbort : List (Except String Unit) → Nat × Except String Unit
  | [] => (0, Except.ok ())
  | r :: rest =>
    match r with
    | Except.error e => (1, Except.error e)
    | Except.ok _ => ((runAbort rest).1 + 1, (runAbort rest).2)

/-- C3 counterexample.  A failing first rewrite makes run return the
error, and the remaining rewrite is never attempted. -/
theorem replacer_run_counterexample :
    (runAbort [Except.error "chdir failed", Except.ok ()]).2 ≠ Except.ok () ∧
    (runAbort [Except.error "chdir failed", Except.ok ()]).1 <
      [Except.error "chdir failed", Except.ok ()].length := by
  constructor
  · intro h
    rw [show (runAbort [Except.error "chdir failed", Except.ok ()]).2 =
      Except.error "chdir failed" from rfl] at h
    exact absurd h (by simp)
  · decide

theorem prepare_skips_failed_attach (p : ProcEntry) (rest : List ProcEntry)
    (dp np : MPath) (h : p.traceOk = false) :
    (CwdReplacer.prepare (p :: rest) dp np).processes =
      (CwdReplacer.prepare rest dp np).processes := by
  simp only [CwdReplacer.prepare, List.filter_cons]
  split
  · simp only [List.filterMap_cons]
    cases hcwd : p.cwd with
    | none => rfl
    | some c =>
      simp only [List.filter_cons]
      split
      · simp only [List.filterMap_cons, h]
        rfl
      · rfl
  · rfl

/-- C3 amended.  When every rewrite outcome succeeds the run loop attempts
all of them and returns success; but the first failing outcome makes run
return that error and the remaining rewrites are not attempted.  Attach
failures during prepare are skipped instead: an entry whose ptrace attach
failed is dropped without affecting the other entries. -/
theorem replacer_run_spec :
    (∀ rs : List (Except String Unit), (∀ r ∈ rs, r = Except.ok ()) →
      runAbort rs = (rs.length, Except.ok ())) ∧
    (∀ (pre post : List (Except String Unit)) (e : String),
      (∀ r ∈ pre, r = Except.ok ()) →
      runAbort (pre ++ Except.error e :: post) =
        (pre.length + 1, Except.error e)) ∧
    (∀ (bad : ProcEntry) (rest : List ProcEntry) (dp np : MPath),
      bad.traceOk = false →
      (CwdReplacer.prepare (bad :: rest) dp np).processes =
        (CwdReplacer.prepare rest dp np).processes) := by
  refine ⟨?_, ?_, ?_⟩
  · intro rs
    induction rs with
    | nil => intro _; rfl
    | cons r rest ih =>
      intro h
      have hr : r = Except.ok () := h r (by simp)
      have hrest : ∀ x ∈ rest, x = Except.ok () := fun x hx => h x (by simp [hx])
      subst hr
      simp only [runAbort, ih hrest, List.length_cons]
  · intro pre
    induction pre with
    | nil =>
      intro post e _
      rfl
    | cons r rest ih =>
      intro post e h
      have hr : r = Except.ok () := h r (by simp)
      have hrest : ∀ x ∈ rest, x = Except.ok () := fun x hx => h x (by simp [hx])
      subst hr
      simp only [List.cons_append, runAbort, List.length_cons]
      have hx : rest.append (Except.error e :: post) =
        rest ++ Except.error e :: post := rfl
      rw [hx, ih post e hrest]
  · exact fun bad rest dp np h => prepare_skips_failed_attach bad rest dp np h

/-- Witness for C3 at concrete outcome lists and a concrete process. -/
theorem replacer_run_spec_witness :
    runAbort [Except.ok (), Except.ok ()] = (2, Except.ok ()) ∧
    runAbort [Except.ok (), Except.error "open failed", Except.ok ()] =
      (2, Except.error "open failed") ∧
    (CwdReplacer.prepare
        [⟨7, some "bash", some ["data", "x"], false⟩] ["data", "x"]
        ["data", "__chaosfs__x__"]).processes =
      (CwdReplacer.prepare [] ["data", "x"] ["data", "__chaosfs__x__"]).processes := by
  refine ⟨?_, ?_, ?_⟩
  · refine replacer_run_spec.1 [Except.ok (), Except.ok ()] ?_
    intro r hr
    rcases List.mem_cons.mp hr with h | hr2
    · exact h
    · rw [List.mem_singleton] at hr2
      exact hr2
  · refine replacer_run_spec.2.1 [Except.ok ()] [Except.ok ()] "open failed" ?_
    intro r hr
    rw [List.mem_singleton] at hr
    exact hr
  · exact replacer_run_spec.2.2
      ⟨7, some "bash", some ["data", "x"], false⟩ [] ["data", "x"]
      ["data", "__chaosfs__x__"] rfl

/-! ## Tracee memory and with_mmap

TracedProcess::with_mmap from src/ptrace/mod.rs, over an explicit record
of the anonymous mappings alive in the tracee.
-/

/-- The mappings alive in the tracee: address-length pairs, plus the next
address the kernel hands out for a fresh anonymous mapping. -/
structure TraceeMem where
  mapped : List (Nat × Nat)
  nextAddr : Nat
deriving DecidableEq

/-- The mmap syscall issued by TracedProcess::mmap: allocate len bytes at
a fresh address. -/
def mmapCall (len : Nat) (s : TraceeMem) : Nat × TraceeMem :=
  (s.nextAddr,
    { mapped := (s.nextAddr, len) :: s.mapped, nextAddr := s.nextAddr + len })

/-- The munmap syscall issued by TracedProcess::munmap: drop the mapping
at the given address and length. -/
def munmapCall (addr len : Nat) (s : TraceeMem) : TraceeMem :=
  { s with mapped := s.mapped.filter (fun al => al != (addr, len)) }

/-- TracedProcess::with_mmap: mmap len bytes, run the callback on the
address, and munmap afterwards; an error from the callback is propagated
immediately, before the munmap line is reached. -/
def with_mmap {R : Type} (len : Nat)
    (f : Nat → TraceeMem → Except String R × TraceeMem) (s : TraceeMem) :
    Except String R × TraceeMem :=
  let a := mmapCall len s
  match f a.1 a.2 with
  | (Except.ok r, s2) => (Except.ok r, munmapCall a.1 len s2)
  | (Except.error e, s2) => (Except.error e, s2)

/-- C5 counterexample.  A callback that fails (as chdir does when the
write into the buffer fails) leaves the allocation mapped in the tracee
after with_mmap returns. -/
theorem with_mmap_leak_counterexample :
    (0, 4) ∈ ((with_mmap 4
      (fun _ s => ((Except.error "write_mem failed" : Except String Unit), s))
      ⟨[], 0⟩).2).mapped := by
  decide

/-- C5 amended.  On the success path with_mmap unmaps the allocation it
made; but when the callback returns an error, with_mmap returns the
callback state unchanged, so an allocation the callback left in place
stays mapped. -/
theorem with_mmap_spec {R : Type} (len : Nat)
    (f : Nat → TraceeMem → Except String R × TraceeMem) (s : TraceeMem) :
    (∀ r s2, f s.nextAddr (mmapCall len s).2 = (Except.ok r, s2) →
      with_mmap len f s = (Except.ok r, munmapCall s.nextAddr len s2) ∧
      ¬ (s.nextAddr, len) ∈ (with_mmap len f s).2.mapped) ∧
    (∀ e s2, f s.nextAddr (mmapCall len s).2 = (Except.error e, s2) →
      with_mmap len f s = (Except.error e, s2) ∧
      ((s.nextAddr, len) ∈ s2.mapped →
        (s.nextAddr, len) ∈ (with_mmap len f s).2.mapped)) := by
  have ha : (mmapCall len s).1 = s.nextAddr := rfl
  constructor
  · intro r s2 hf
    have hrun : with_mmap len f s = (Except.ok r, munmapCall s.nextAddr len s2) := by
      simp only [with_mmap, ha, hf]
    refine ⟨hrun, ?_⟩
    rw [hrun]
    simp only [munmapCall, List.mem_filter]
    rintro ⟨-, habs⟩
    simp at habs
  · intro e s2 hf
    have hrun : with_mmap len f s = (Except.error e, s2) := by
      simp only [with_mmap, ha, hf]
    exact ⟨hrun, fun hmem => by rw [hrun]; exact hmem⟩

/-- Witness for C5 at concrete callbacks. -/
theorem with_mmap_spec_witness :
    with_mmap 4 (fun _ s => (Except.ok 0, s)) (⟨[], 0⟩ : TraceeMem) =
      (Except.ok 0, munmapCall 0 4 ⟨[(0, 4)], 4⟩) ∧
    with_mmap 4 (fun _ s => ((Except.error "write_mem failed" : Except String Nat), s))
        (⟨[], 0⟩ : TraceeMem) =
      (Except.error "write_mem failed", ⟨[(0, 4)], 4⟩) := by
  constructor
  · exact ((with_mmap_spec 4 (fun _ s => (Except.ok 0, s)) ⟨[], 0⟩).1 0
      ⟨[(0, 4)], 4⟩ rfl).1
  · exact ((with_mmap_spec 4
      (fun _ s => ((Except.error "write_mem failed" : Except String Nat), s))
      ⟨[], 0⟩).2 "write_mem failed" ⟨[(0, 4)], 4⟩ rfl).1

/-! ## Control surface: the update endpoint

TodaRpc::update from src/todarpc.rs and the /update arm of
TodaService::handle from src/cmd/interactive/handler.rs.  The injector
pipeline is abstract; MultiInjector::build is a parameter, as is the
parse outcome of the request body.
-/

/-- The injector pipeline, abstractly: a list of built injectors. -/
abbrev Pipeline := List Nat

/-- An HTTP response: status code and body text. -/
structure HttpResp where
  status : Nat
  body : String
deriving DecidableEq

/-- TodaRpc::update: report a stored error status as its text; report a
build failure as its text; on success swap the pipeline and answer ok.
Every path returns Ok, so the handler error arm is never taken. -/
def updateRpc (rpc_status : Except String Unit)
    (build_result : Except String Pipeline) (cur : Pipeline) :
    Except String String × Pipeline :=
  match rpc_status with
  | Except.error e => (Except.ok e, cur)
  | Except.ok _ =>
    match build_result with
    | Except.error e => (Except.ok e, cur)
    | Except.ok injectors => (Except.ok "ok", injectors)

/-- The /update arm of TodaService::handle: a body that fails to parse
answers 400 with the error text; otherwise the status is already set to
200 and the update result text becomes the body. -/
def handleUpdate (parse_result : Except String (List Nat))
    (build : List Nat → Except String Pipeline)
    (rpc_status : Except String Unit) (cur : Pipeline) :
    HttpResp × Pipeline :=
  match parse_result with
  | Except.error e => ({ status := 400, body := e }, cur)
  | Except.ok config =>
    match updateRpc rpc_status (build config) cur with
    | (Except.ok res, p) => ({ status := 200, body := res }, p)
    | (Except.error e, p) => ({ status := 200, body := e }, p)

/-- C7 counterexample.  A body that parses but whose injector list fails
to build is answered with status 200 carrying the error text, not with
status 400, and the pipeline is left unchanged. -/
theorem handle_update_counterexample :
    handleUpdate (Except.ok [0]) (fun _ => Except.error "build failed")
        (Except.ok ()) [7] =
      ({ status := 200, body := "build failed" }, [7]) ∧
    (handleUpdate (Except.ok [0]) (fun _ => Except.error "build failed")
        (Except.ok ()) [7]).1.status ≠ 400 := by
  refine ⟨rfl, by decide⟩

/-- C7 amended.  Only a parse failure is answered with 400 and the error
text; a build failure is answered with 200 and the error text, leaving
the pipeline unchanged; and when parse and build both succeed the
pipeline is swapped for the new one and the answer is 200 ok; a stored
error status also answers 200 with its text without swapping. -/
theorem handle_update_spec (build : List Nat → Except String Pipeline)
    (cur : Pipeline) :
    (∀ e, handleUpdate (Except.error e) build (Except.ok ()) cur =
      ({ status := 400, body := e }, cur)) ∧
    (∀ config e, build config = Except.error e →
      handleUpdate (Except.ok config) build (Except.ok ()) cur =
        ({ status := 200, body := e }, cur)) ∧
    (∀ config p, build config = Except.ok p →
      handleUpdate (Except.ok config) build (Except.ok ()) cur =
        ({ status := 200, body := "ok" }, p)) ∧
    (∀ config e, handleUpdate (Except.ok config) build (Except.error e) cur =
      ({ status := 200, body := e }, cur)) := by
  refine ⟨?_, ?_, ?_, ?_⟩
  · intro e
    rfl
  · intro config e hb
    simp only [handleUpdate, updateRpc, hb]
  · intro config p hb
    simp only [handleUpdate, updateRpc, hb]
  · intro config e
    rfl

/-- Witness for C7 at a concrete build function. -/
theorem handle_update_spec_witness :
    handleUpdate (Except.ok [3]) (fun c => Except.ok c) (Except.ok ()) [7] =
      ({ status := 200, body := "ok" }, [3]) ∧
    handleUpdate (Except.ok [3]) (fun _ => Except.error "bad glob")
        (Except.ok ()) [7] =
      ({ status := 200, body := "bad glob" }, [7]) := by
  constructor
  · exact (handle_update_spec (fun c => Except.ok c) [7]).2.2.1 [3] [3] rfl
  · exact (handle_update_spec (fun _ => Except.error "bad glob") [7]).2.1 [3]
      "bad glob" rfl

/-! ## setattr

HookFs::setattr from src/hookfs/mod.rs together with convert_time from
src/hookfs/utils.rs and the helper async_fchmodat, recorded as the list
of host syscalls the handler issues.
-/

/-- A timespec as handed to utimensat. -/
structure Timespec where
  tv_sec : Int
  tv_nsec : Int
deriving DecidableEq

/-- The UTIME_NOW marker nanosecond value. -/
def UTIME_NOW : Int := 1073741823

/-- The UTIME_OMIT marker nanosecond value. -/
def UTIME_OMIT : Int := 1073741822

/-- The fuser TimeOrNow argument: a specific time (nanoseconds since the
epoch) or the current time. -/
inductive TimeOrNow where
  | specificTime (nanos : Nat)
  | now
deriving DecidableEq

/-- convert_time from src/hookfs/utils.rs: a specific time splits into
seconds and nanoseconds, Now maps to UTIME_NOW, and an absent time maps
to UTIME_OMIT. -/
def convert_time (t : Option TimeOrNow) : Timespec :=
  match t with
  | some (TimeOrNow.specificTime ns) =>
    { tv_sec := Int.ofNat ns / 1000000000, tv_nsec := Int.ofNat ns % 1000000000 }
  | some TimeOrNow.now => { tv_sec := 0, tv_nsec := UTIME_NOW }
  | none => { tv_sec := 0, tv_nsec := UTIME_OMIT }

/-- The host syscalls a setattr request can issue.  The chmod call
records whether the fchmodat flag follows symlinks. -/
inductive SetattrCall where
  | chownCall (uid gid : Option Nat)
  | chmodCall (mode : Nat) (follow_symlink : Bool)
  | truncateCall (size : Int)
  | utimensCall (atime mtime : Timespec)
deriving DecidableEq

/-- HookFs::setattr as its syscall list: always lchown with the optional
owner fields, fchmodat only when a mode is given - with the FollowSymlink
flag, as async_fchmodat passes FchmodatFlags::FollowSymlink - truncate
only when a size is given, and always utimensat on the converted times. -/
def setattrCalls (mode uid gid : Option Nat) (size : Option Nat)
    (atime mtime : Option TimeOrNow) : List SetattrCall :=
  [SetattrCall.chownCall uid gid] ++
  (match mode with
   | some m => [SetattrCall.chmodCall m true]
   | none => []) ++
  (match size with
   | some sz => [SetattrCall.truncateCall (Int.ofNat sz)]
   | none => []) ++
  [SetattrCall.utimensCall (convert_time atime) (convert_time mtime)]

/-- C8 counterexample.  A setattr that only changes the mode issues
fchmodat with the FollowSymlink flag: the no-follow variant demanded by
the claim is not among the issued calls. -/
theorem setattr_nofollow_counterexample :
    SetattrCall.chmodCall 420 true ∈
      setattrCalls (some 420) none none none none none ∧
    ¬ SetattrCall.chmodCall 420 false ∈
      setattrCalls (some 420) none none none none none := by
  refine ⟨by decide, by decide⟩

/-- C8 amended.  Exactly the specified fields are applied: a chmod call
appears exactly for the given mode and always carries the FollowSymlink
flag (so the target of a symlink, not the link, is affected), a truncate
call appears exactly for the given size, the single chown call carries
exactly the optional owner fields, the single utimensat call carries the
converted times, and an absent time converts to UTIME_OMIT. -/
theorem setattr_spec (mode uid gid : Option Nat) (size : Option Nat)
    (atime mtime : Option TimeOrNow) :
    (∀ m b, SetattrCall.chmodCall m b ∈ setattrCalls mode uid gid size atime mtime →
      mode = some m ∧ b = true) ∧
    (∀ m, mode = some m →
      SetattrCall.chmodCall m true ∈ setattrCalls mode uid gid size atime mtime) ∧
    (∀ z, SetattrCall.truncateCall z ∈ setattrCalls mode uid gid size atime mtime ↔
      ∃ sz, size = some sz ∧ z = Int.ofNat sz) ∧
    (∀ u g, SetattrCall.chownCall u g ∈ setattrCalls mode uid gid size atime mtime ↔
      (u = uid ∧ g = gid)) ∧
    (∀ a mt, SetattrCall.utimensCall a mt ∈ setattrCalls mode uid gid size atime mtime ↔
      (a = convert_time atime ∧ mt = convert_time mtime)) ∧
    convert_time none = ⟨0, UTIME_OMIT⟩ := by
  refine ⟨?_, ?_, ?_, ?_, ?_, rfl⟩
  · intro m b hmem
    simp only [setattrCalls, List.mem_append, List.mem_singleton] at hmem
    rcases hmem with ((h | h) | h) | h
    · exact absurd h (by simp)
    · cases hmode : mode with
      | none => rw [hmode] at h; exact absurd h (by simp)
      | some m0 =>
        rw [hmode] at h
        simp only [List.mem_singleton, SetattrCall.chmodCall.injEq] at h
        exact ⟨by simp [hmode, h.1], h.2⟩
    · cases hsize : size with
      | none => rw [hsize] at h; exact absurd h (by simp)
      | some sz =>
        rw [hsize] at h
        exact absurd h (by simp)
    · exact absurd h (by simp)
  · intro m hmode
    subst hmode
    simp [setattrCalls]
  · intro z
    constructor
    · intro hmem
      simp only [setattrCalls, List.mem_append, List.mem_singleton] at hmem
      rcases hmem with ((h | h) | h) | h
      · exact absurd h (by simp)
      · cases hmode : mode with
        | none => rw [hmode] at h; exact absurd h (by simp)
        | some m0 => rw [hmode] at h; exact absurd h (by simp)
      · cases hsize : size with
        | none => rw [hsize] at h; exact absurd h (by simp)
        | some sz =>
          rw [hsize] at h
          simp only [List.mem_singleton, SetattrCall.truncateCall.injEq] at h
          exact ⟨sz, rfl, h⟩
      · exact absurd h (by simp)
    · rintro ⟨sz, hsz, hz⟩
      subst hsz
      subst hz
      simp [setattrCalls]
  · intro u g
    constructor
    · intro hmem
      simp only [setattrCalls, List.mem_append, List.mem_singleton] at hmem
      rcases hmem with ((h | h) | h) | h
      · simp only [List.mem_singleton, SetattrCall.chownCall.injEq] at h
        exact h
      · cases hmode : mode with
        | none => rw [hmode] at h; exact absurd h (by simp)
        | some m0 => rw [hmode] at h; exact absurd h (by simp)
      · cases hsize : size with
        | none => rw [hsize] at h; exact absurd h (by simp)
        | some sz => rw [hsize] at h; exact absurd h (by simp)
      · exact absurd h (by simp)
    · rintro ⟨hu, hg⟩
      subst hu
      subst hg
      simp [setattrCalls]
  · intro a mt
    constructor
    · intro hmem
      simp only [setattrCalls, List.mem_append, List.mem_singleton] at hmem
      rcases hmem with ((h | h) | h) | h
      · exact absurd h (by simp)
      · cases hmode : mode with
        | none => rw [hmode] at h; exact absurd h (by simp)
        | some m0 => rw [hmode] at h; exact absurd h (by simp)
      · cases hsize : size with
        | none => rw [hsize] at h; exact absurd h (by simp)
        | some sz => rw [hsize] at h; exact absurd h (by simp)
      · simp only [List.mem_singleton, SetattrCall.utimensCall.injEq] at h
        exact h
    · rintro ⟨ha, hmt⟩
      subst ha
      subst hmt
      simp [setattrCalls]

/-- Witness for C8 at a concrete request. -/
theorem setattr_spec_witness :
    SetattrCall.chmodCall 420 true ∈
      setattrCalls (some 420) (some 0) none (some 16) (some TimeOrNow.now) none ∧
    (SetattrCall.truncateCall 16 ∈
      setattrCalls (some 420) (some 0) none (some 16) (some TimeOrNow.now) none ↔
      ∃ sz, (some 16 : Option Nat) = some sz ∧ (16 : Int) = Int.ofNat sz) := by
  constructor
  · exact (setattr_spec (some 420) (some 0) none (some 16) (some TimeOrNow.now)
      none).2.1 420 rfl
  · exact (setattr_spec (some 420) (some 0) none (some 16) (some TimeOrNow.now)
      none).2.2.1 16

/-! ## Mistake injector

MistakeInjector::handle from src/injector/mistake_injector.rs.  The
random number generator is modelled by an explicit entropy list consumed
draw by draw; gen_range lo hi returns a value in lo..hi and is undefined
(the source panics) when the range is empty; writing a byte out of
bounds is likewise undefined.  Failure of either is propagated as none,
so a some result certifies that no out-of-bounds access and no panic
occurred.  The config fields are usize values: the two places where the
source computes an upper bound as x + 1 in usize reduce the sum modulo
2^64: at max_occurrences = usize::MAX the bound wraps to 0 in a release
build, and a debug build panics on the overflow itself, so either way
the call fails, which none models.
-/

/-- One more than the largest usize value: usize arithmetic wraps at this
modulus. -/
def USIZE : Nat := 18446744073709551616

/-- The filling mode of a mistake. -/
inductive MistakeType where
  | zero
  | random
deriving DecidableEq

/-- MistakeConfig from src/injector/injector_config.rs.  All four fields
are usize in the source; the sums the source forms from them are reduced
modulo USIZE at the call sites below. -/
structure MistakeConfig where
  filling : MistakeType
  max_length : Nat
  max_occurrences : Nat
  percent : Nat
deriving DecidableEq

/-- A recorded stream of raw random draws. -/
abbrev Entropy := List Nat

/-- Consume one raw draw (an exhausted list yields zeros: the stream is
arbitrary, theorems quantify over all of them). -/
def takeEnt (ent : Entropy) : Nat × Entropy :=
  match ent with
  | [] => (0, [])
  | e :: rest => (e, rest)

/-- rng.gen_range(lo, hi) from a raw draw: a value in lo..hi when the
range is nonempty; none models the panic on an empty range. -/
def gen_range (lo hi e : Nat) : Option Nat :=
  if lo < hi then some (lo + e % (hi - lo)) else none

/-- A single byte store data[i] = v; none models the out-of-bounds
panic. -/
def setByte (data : List Nat) (i v : Nat) : Option (List Nat) :=
  if i < data.length then some (data.set i v) else none

/-- The zero-filling loop: data[i] = 0 for i in pos..pos+len. -/
def fillZero : List Nat → Nat → Nat → Option (List Nat)
  | data, _, 0 => some data
  | data, pos, Nat.succ k =>
    match setByte data pos 0 with
    | some d => fillZero d (pos + 1) k
    | none => none

/-- The random filling rng.fill over data[pos..pos+len], one drawn byte
per position. -/
def fillRand : List Nat → Nat → Nat → Entropy → Option (List Nat × Entropy)
  | data, _, 0, ent => some (data, ent)
  | data, pos, Nat.succ k, ent =>
    match setByte data pos ((takeEnt ent).1 % 256) with
    | some d => fillRand d (pos + 1) k (takeEnt ent).2
    | none => none

/-- One occurrence of the mistake loop body: draw a position in
0..max(len,1), clamp the length bound to the buffer end, draw a length
in 1..bound+1 unless the bound is zero - the bound+1 is usize
arithmetic - and fill the range. -/
def occurrenceStep (mistake : MistakeConfig) (data : List Nat) (ent : Entropy) :
    Option (List Nat × Entropy) :=
  let data_length := data.length
  let tp := takeEnt ent
  match gen_range 0 (max data_length 1) tp.1 with
  | none => none
  | some pos =>
    let lb := min mistake.max_length (data_length - pos)
    let drawLen : Option (Nat × Entropy) :=
      if lb = 0 then some (0, tp.2)
      else
        let tl := takeEnt tp.2
        match gen_range 1 ((lb + 1) % USIZE) tl.1 with
        | some l => some (l, tl.2)
        | none => none
    match drawLen with
    | none => none
    | some (length, ent2) =>
      match mistake.filling with
      | MistakeType.zero =>
        (fillZero data pos length).map (fun d => (d, ent2))
      | MistakeType.random => fillRand data pos length ent2

/-- The for loop over the drawn number of occurrences. -/
def occurrenceLoop (mistake : MistakeConfig) :
    Nat → List Nat → Entropy → Option (List Nat)
  | 0, data, _ => some data
  | Nat.succ k, data, ent =>
    match occurrenceStep mistake data ent with
    | none => none
    | some (d, ent2) => occurrenceLoop mistake k d ent2

/-- MistakeInjector::handle: draw the percent gate and return the buffer
unchanged when it misses; otherwise draw the occurrence count: zero when
max_occurrences is zero, and otherwise from 1..max_occurrences+1, where
the +1 is usize arithmetic that wraps to 0 at max_occurrences =
usize::MAX; then run the occurrence loop. -/
def handleMistake (mistake : MistakeConfig) (data : List Nat) (ent : Entropy) :
    Option (List Nat) :=
  let t0 := takeEnt ent
  match gen_range 0 100 t0.1 with
  | none => none
  | some d0 =>
    if mistake.percent ≤ d0 then some data
    else
      if mistake.max_occurrences = 0 then occurrenceLoop mistake 0 data t0.2
      else
        let t1 := takeEnt t0.2
        match gen_range 1 ((mistake.max_occurrences + 1) % USIZE) t1.1 with
        | none => none
        | some occurrence => occurrenceLoop mistake occurrence data t1.2

theorem gen_range_bounds (lo hi e v : Nat) (h : gen_range lo hi e = some v) :
    lo ≤ v ∧ v < hi := by
  unfold gen_range at h
  split at h
  · rename_i hlh
    have hv := Option.some.inj h
    have hm := Nat.mod_lt e (show 0 < hi - lo by omega)
    omega
  · exact absurd h (by simp)

/-- C9 counterexample.  At the representable configuration
max_occurrences = usize::MAX, the occurrence upper bound
max_occurrences + 1 wraps to 0, so the draw gen_range(1, 0) panics: the
routine does not complete for every configuration. -/
theorem handle_mistake_overflow_counterexample :
    handleMistake ⟨MistakeType.zero, 1, USIZE - 1, 100⟩ [0] [] = none := by
  rfl

theorem fillZero_safe :
    ∀ (k : Nat) (data : List Nat) (pos : Nat), pos + k ≤ data.length →
      ∃ d, fillZero data pos k = some d ∧ d.length = data.length
  | 0, data, pos, _ => ⟨data, rfl, rfl⟩
  | Nat.succ k, data, pos, h => by
    have hpos : pos < data.length := by omega
    have hset : setByte data pos 0 = some (data.set pos 0) := by
      simp [setByte, hpos]
    have hlen : (data.set pos 0).length = data.length := by simp
    obtain ⟨d, hd, hdl⟩ := fillZero_safe k (data.set pos 0) (pos + 1)
      (by rw [hlen]; omega)
    refine ⟨d, ?_, by rw [hdl, hlen]⟩
    simp only [fillZero, hset]
    exact hd

theorem fillRand_safe :
    ∀ (k : Nat) (data : List Nat) (pos : Nat) (ent : Entropy),
      pos + k ≤ data.length →
      ∃ d ent2, fillRand data pos k ent = some (d, ent2) ∧
        d.length = data.length
  | 0, data, pos, ent, _ => ⟨data, ent, rfl, rfl⟩
  | Nat.succ k, data, pos, ent, h => by
    have hpos : pos < data.length := by omega
    have hset : setByte data pos ((takeEnt ent).1 % 256) =
        some (data.set pos ((takeEnt ent).1 % 256)) := by
      simp [setByte, hpos]
    have hlen : (data.set pos ((takeEnt ent).1 % 256)).length = data.length := by
      simp
    obtain ⟨d, ent2, hd, hdl⟩ := fillRand_safe k
      (data.set pos ((takeEnt ent).1 % 256)) (pos + 1) (takeEnt ent).2
      (by rw [hlen]; omega)
    refine ⟨d, ent2, ?_, by rw [hdl, hlen]⟩
    simp only [fillRand, hset]
    exact hd

theorem occurrenceStep_safe (mistake : MistakeConfig) (data : List Nat)
    (ent : Entropy) (hlen : data.length + 1 < USIZE) :
    ∃ d ent2, occurrenceStep mistake data ent = some (d, ent2) ∧
      d.length = data.length := by
  have h1 : 0 < max data.length 1 :=
    lt_of_lt_of_le Nat.zero_lt_one (Nat.le_max_right _ _)
  have hgen1 : gen_range 0 (max data.length 1) (takeEnt ent).1 =
      some ((takeEnt ent).1 % max data.length 1) := by
    simp [gen_range, h1]
  have hposlt : (takeEnt ent).1 % max data.length 1 < max data.length 1 :=
    Nat.mod_lt _ h1
  simp only [occurrenceStep, hgen1]
  by_cases hmin : min mistake.max_length
      (data.length - (takeEnt ent).1 % max data.length 1) = 0
  · simp only [hmin, if_pos rfl]
    cases hfill : mistake.filling with
    | zero =>
      refine ⟨data, (takeEnt ent).2, ?_, rfl⟩
      simp [fillZero]
    | random =>
      refine ⟨data, (takeEnt ent).2, ?_, rfl⟩
      simp [fillRand]
  · have hlb1 : 1 ≤ min mistake.max_length
        (data.length - (takeEnt ent).1 % max data.length 1) :=
      Nat.one_le_iff_ne_zero.mpr hmin
    have hlble : min mistake.max_length
        (data.length - (takeEnt ent).1 % max data.length 1) ≤
        data.length - (takeEnt ent).1 % max data.length 1 :=
      Nat.min_le_right _ _
    have hposlt2 : (takeEnt ent).1 % max data.length 1 < data.length := by
      omega
    have hmod : (min mistake.max_length
        (data.length - (takeEnt ent).1 % max data.length 1) + 1) % USIZE =
        min mistake.max_length
          (data.length - (takeEnt ent).1 % max data.length 1) + 1 :=
      Nat.mod_eq_of_lt (by omega)
    have h1lt : (1 : Nat) < min mistake.max_length
        (data.length - (takeEnt ent).1 % max data.length 1) + 1 := by
      omega
    have hgen2 : gen_range 1 ((min mistake.max_length
        (data.length - (takeEnt ent).1 % max data.length 1) + 1) % USIZE)
        (takeEnt (takeEnt ent).2).1 =
        some (1 + (takeEnt (takeEnt ent).2).1 % min mistake.max_length
          (data.length - (takeEnt ent).1 % max data.length 1)) := by
      rw [hmod]
      simp [gen_range, h1lt]
    have hlbmod := Nat.mod_lt (takeEnt (takeEnt ent).2).1
      (show 0 < min mistake.max_length
        (data.length - (takeEnt ent).1 % max data.length 1) by omega)
    rw [if_neg hmin]
    simp only [hgen2]
    cases hfill : mistake.filling with
    | zero =>
      obtain ⟨d, hd, hdl⟩ := fillZero_safe
        (1 + (takeEnt (takeEnt ent).2).1 % min mistake.max_length
          (data.length - (takeEnt ent).1 % max data.length 1)) data
        ((takeEnt ent).1 % max data.length 1) (by omega)
      refine ⟨d, (takeEnt (takeEnt ent).2).2, ?_, hdl⟩
      simp [hd]
    | random =>
      obtain ⟨d, ent2, hd, hdl⟩ := fillRand_safe
        (1 + (takeEnt (takeEnt ent).2).1 % min mistake.max_length
          (data.length - (takeEnt ent).1 % max data.length 1)) data
        ((takeEnt ent).1 % max data.length 1) (takeEnt (takeEnt ent).2).2
        (by omega)
      refine ⟨d, ent2, ?_, hdl⟩
      simp [hd]

theorem occurrenceLoop_safe (mistake : MistakeConfig) :
    ∀ (k : Nat) (data : List Nat) (ent : Entropy), data.length + 1 < USIZE →
      ∃ d, occurrenceLoop mistake k data ent = some d ∧
        d.length = data.length
  | 0, data, _, _ => ⟨data, rfl, rfl⟩
  | Nat.succ k, data, ent, hlen => by
    obtain ⟨d1, ent2, hstep, hlen1⟩ := occurrenceStep_safe mistake data ent hlen
    obtain ⟨d2, hloop, hlen2⟩ := occurrenceLoop_safe mistake k d1 ent2
      (by rw [hlen1]; exact hlen)
    refine ⟨d2, ?_, by rw [hlen2, hlen1]⟩
    simp only [occurrenceLoop, hstep]
    exact hloop

/-- C9 amended.  For every buffer whose length is a representable usize
(every real buffer; the empty buffer included) and every mistake
configuration whose max_occurrences is below usize::MAX (so the upper
bound max_occurrences + 1 does not overflow; max_occurrences or
max_length zero included) and every random stream, the corruption
routine completes without any out-of-bounds access or panic, and the
buffer length is unchanged. -/
theorem handle_mistake_safe (mistake : MistakeConfig) (data : List Nat)
    (ent : Entropy) (hocc : mistake.max_occurrences + 1 < USIZE)
    (hlen : data.length + 1 < USIZE) :
    ∃ out, handleMistake mistake data ent = some out ∧
      out.length = data.length := by
  have h100 : gen_range 0 100 (takeEnt ent).1 =
      some ((takeEnt ent).1 % 100) := by
    simp [gen_range]
  simp only [handleMistake, h100]
  by_cases hp : mistake.percent ≤ (takeEnt ent).1 % 100
  · simp only [hp, if_true]
    exact ⟨data, rfl, rfl⟩
  · simp only [hp, if_false]
    by_cases hmo : mistake.max_occurrences = 0
    · simp only [hmo, if_pos rfl]
      exact ⟨data, rfl, rfl⟩
    · rw [if_neg hmo]
      have hmod : (mistake.max_occurrences + 1) % USIZE =
          mistake.max_occurrences + 1 := Nat.mod_eq_of_lt hocc
      have h1lt : (1 : Nat) < mistake.max_occurrences + 1 := by
        have := Nat.one_le_iff_ne_zero.mpr hmo
        omega
      have hg : gen_range 1 ((mistake.max_occurrences + 1) % USIZE)
          (takeEnt (takeEnt ent).2).1 =
          some (1 + (takeEnt (takeEnt ent).2).1 % mistake.max_occurrences) := by
        rw [hmod]
        simp [gen_range, h1lt]
      simp only [hg]
      exact occurrenceLoop_safe mistake
        (1 + (takeEnt (takeEnt ent).2).1 % mistake.max_occurrences) data
        (takeEnt (takeEnt ent).2).2 hlen

/-- Witness for C9 at a concrete configuration, buffer and stream. -/
theorem handle_mistake_safe_witness :
    ∃ out, handleMistake ⟨MistakeType.zero, 2, 3, 0⟩ [7, 7, 7]
        [9, 9, 9, 9, 9] = some out ∧
      out.length = ([7, 7, 7] : List Nat).length :=
  handle_mistake_safe ⟨MistakeType.zero, 2, 3, 0⟩ [7, 7, 7] [9, 9, 9, 9, 9]
    (by decide) (by decide)
